import Mathlib

/-!
Verification development for the transaction primitive of
`src/bitcoin-0.16_my/src/primitives/transaction.h`: the data model
(outpoint, input, output, mutable transaction) and the dual-mode
serialization codec (`SerializeTransaction` / `UnserializeTransaction`),
shallowly embedded over byte streams modelled as `List Nat`.

External collaborators that transaction.h includes but whose code is not
part of the excerpt (`serialize.h`, `uint256.h`, `script.h`, the hashing
in `transaction.cpp`) are modelled from the specification; each such
definition carries a doc comment saying so.
-/

/-- A byte stream: a list of naturals. Writers only emit values `< 256`. -/
abbrev ByteStream := List Nat

/-- Errors during deserialization. `streamErr` stands for any failure of the
underlying stream collaborator (truncation); `unknownOptionalData` is the
single error of this core, `throw std::ios_base::failure("Unknown transaction
optional data")` in `UnserializeTransaction`. -/
inductive DecodeErr where
  | streamErr
  | unknownOptionalData
deriving Repr, DecidableEq

deriving instance DecidableEq for Except

/-- `static const int SERIALIZE_TRANSACTION_NO_WITNESS = 0x40000000;`
(transaction.h line 15). -/
def SERIALIZE_TRANSACTION_NO_WITNESS : Nat := 0x40000000

/-- `!(s.GetVersion() & SERIALIZE_TRANSACTION_NO_WITNESS)` — the witness mode
of a stream, computed from its version word. -/
def fAllowWitnessOf (streamVersion : Nat) : Bool :=
  (streamVersion &&& SERIALIZE_TRANSACTION_NO_WITNESS) == 0

/-- `class COutPoint` (transaction.h lines 21-61). The `uint256 hash` is
modelled as a natural `< 2^256`; its 32 serialized bytes are the
little-endian digits, matching `base_blob`'s in-memory byte order. -/
structure COutPoint where
  hash : Nat
  n : Nat
deriving Repr, DecidableEq

/-- Modelled from the spec: `uint256::IsNull` (uint256.h is not in the
excerpt) — the hash is null iff every byte is zero, i.e. the value is 0. -/
def uint256IsNull (h : Nat) : Bool := h == 0

/-- Default-constructed `COutPoint()`: zero hash (default `uint256`, modelled
from the spec as all-zero) and `n = (uint32_t) -1 = 0xFFFFFFFF`. -/
def COutPointDefault : COutPoint := { hash := 0, n := 0xFFFFFFFF }

/-- `COutPoint::IsNull`: `hash.IsNull() && n == (uint32_t) -1`. -/
def COutPoint.IsNull (p : COutPoint) : Bool :=
  uint256IsNull p.hash && p.n == 0xFFFFFFFF

/-- Modelled from the spec: `CScriptWitness::IsNull` (script.h is not in the
excerpt) — the witness is null iff its stack of byte strings is empty. -/
def scriptWitnessIsNull (w : List (List Nat)) : Bool := w.isEmpty

/-- `class CTxIn` (transaction.h lines 70-168). `scriptSig` is the raw byte
vector of the script; `scriptWitness` is the stack of byte strings
("Only serialized through CTransaction"). -/
structure CTxIn where
  prevout : COutPoint
  scriptSig : List Nat
  nSequence : Nat
  scriptWitness : List (List Nat)
deriving Repr, DecidableEq

/-- `class CTxOut` (transaction.h lines 175-219): a signed 64-bit amount
(`CAmount`) and the locking script's bytes. -/
structure CTxOut where
  nValue : Int
  scriptPubKey : List Nat
deriving Repr, DecidableEq

/-- Default-constructed `CTxOut()`, which calls `SetNull()`:
`nValue = -1`, script cleared. -/
def CTxOutDefault : CTxOut := { nValue := -1, scriptPubKey := [] }

/-- `CTxOut::IsNull`: `nValue == -1` (the script is not consulted). -/
def CTxOut.IsNull (o : CTxOut) : Bool := o.nValue == -1

/-- `struct CMutableTransaction` (transaction.h lines 426-471). The same
field shape backs `CTransaction` (whose fields are const copies of these),
so this record also serves as the transaction value for the codec and for
`GetHash` / `GetWitnessHash` / `IsCoinBase` / `HasWitness`. -/
structure CMutableTransaction where
  vin : List CTxIn
  vout : List CTxOut
  nVersion : Int
  nLockTime : Nat
deriving Repr, DecidableEq

/-- `HasWitness` (transaction.h lines 414-422 / 462-470): some input's
`scriptWitness` is not null. -/
def CMutableTransaction.HasWitness (tx : CMutableTransaction) : Bool :=
  tx.vin.any fun i => !(scriptWitnessIsNull i.scriptWitness)

/-- `CTransaction::IsCoinBase` (transaction.h lines 397-400):
`vin.size() == 1 && vin[0].prevout.IsNull()`. -/
def CMutableTransaction.IsCoinBase (tx : CMutableTransaction) : Bool :=
  tx.vin.length == 1 &&
    (match tx.vin.head? with
     | some i => i.prevout.IsNull
     | none => false)

/-! ### Primitive writers

Modelled from the spec (serialize.h is not in the excerpt): fixed-width
fields are little-endian; sequences are length-prefixed with Bitcoin's
CompactSize variable-length count. -/

/-- The low `k` bytes of `n`, little-endian. -/
def putLEBytes : Nat → Nat → List Nat
  | 0, _ => []
  | k + 1, n => n % 256 :: putLEBytes k (n / 256)

/-- 4-byte little-endian unsigned word. -/
def putU32LE (n : Nat) : List Nat := putLEBytes 4 n

/-- 4-byte little-endian signed word (two's complement). -/
def putI32LE (v : Int) : List Nat := putLEBytes 4 (v % (2 ^ 32 : Int)).toNat

/-- 8-byte little-endian signed word (two's complement), for `CAmount`. -/
def putI64LE (v : Int) : List Nat := putLEBytes 8 (v % (2 ^ 64 : Int)).toNat

/-- 32 raw bytes of a `uint256`, in `base_blob` data order (little-endian). -/
def putU256 (h : Nat) : List Nat := putLEBytes 32 h

/-- Modelled from the spec: Bitcoin's CompactSize length prefix
(serialize.h's `WriteCompactSize`): one byte below 253, otherwise a marker
byte `0xFD`/`0xFE`/`0xFF` followed by a 2-, 4- or 8-byte little-endian value. -/
def writeCompactSize (n : Nat) : List Nat :=
  if n < 253 then [n]
  else if n ≤ 0xFFFF then 253 :: putLEBytes 2 n
  else if n ≤ 0xFFFFFFFF then 254 :: putLEBytes 4 n
  else 255 :: putLEBytes 8 n

/-- A length-prefixed byte string (scripts, witness items). -/
def putByteVec (s : List Nat) : List Nat := writeCompactSize s.length ++ s

/-- A length-prefixed sequence of serialized elements. -/
def putVec (f : α → List Nat) (l : List α) : List Nat :=
  writeCompactSize l.length ++ (l.map f).flatten

/-- `COutPoint::SerializationOp`: hash then index. -/
def putOutPoint (p : COutPoint) : List Nat := putU256 p.hash ++ putU32LE p.n

/-- `CTxIn::SerializationOp` (transaction.h lines 148-153): prevout,
scriptSig, nSequence — the witness stack is not embedded here. -/
def putTxInCore (i : CTxIn) : List Nat :=
  putOutPoint i.prevout ++ putByteVec i.scriptSig ++ putU32LE i.nSequence

/-- `CTxOut::SerializationOp` (transaction.h lines 190-194): amount then
locking script. -/
def putTxOut (o : CTxOut) : List Nat :=
  putI64LE o.nValue ++ putByteVec o.scriptPubKey

/-- One input's witness stack: a length-prefixed sequence of length-prefixed
byte strings (`s << tx.vin[i].scriptWitness.stack`). -/
def putWitnessStack (w : List (List Nat)) : List Nat := putVec putByteVec w

/-- `SerializeTransaction` (transaction.h lines 275-302), parametrized by the
stream's witness mode `fAllowWitness`. -/
def SerializeTransaction (tx : CMutableTransaction) (fAllowWitness : Bool) :
    ByteStream :=
  let flags : Nat := if fAllowWitness && tx.HasWitness then 1 else 0
  putI32LE tx.nVersion
    ++ (if flags ≠ 0 then putVec putTxInCore ([] : List CTxIn) ++ [flags]
        else [])
    ++ putVec putTxInCore tx.vin
    ++ putVec putTxOut tx.vout
    ++ (if flags % 2 = 1 then
          (tx.vin.map fun i => putWitnessStack i.scriptWitness).flatten
        else [])
    ++ putU32LE tx.nLockTime

/-! ### Primitive readers

Each reader consumes a prefix of the stream and returns the value and the
rest, or `streamErr` when the stream is exhausted. -/

/-- Read one byte. -/
def readByte : ByteStream → Except DecodeErr (Nat × ByteStream)
  | [] => .error .streamErr
  | b :: s => .ok (b, s)

/-- Read `k` bytes as a little-endian natural. -/
def readLEBytes : Nat → ByteStream → Except DecodeErr (Nat × ByteStream)
  | 0, s => .ok (0, s)
  | k + 1, s =>
    match readByte s with
    | .error e => .error e
    | .ok (b, s) =>
      match readLEBytes k s with
      | .error e => .error e
      | .ok (v, s) => .ok (b + 256 * v, s)

/-- Read a 4-byte little-endian unsigned word. -/
def readU32LE (s : ByteStream) : Except DecodeErr (Nat × ByteStream) :=
  readLEBytes 4 s

/-- Read a 4-byte little-endian signed word (two's complement). -/
def readI32LE (s : ByteStream) : Except DecodeErr (Int × ByteStream) :=
  match readLEBytes 4 s with
  | .error e => .error e
  | .ok (n, s) =>
    .ok (if n < 2 ^ 31 then (n : Int) else (n : Int) - 2 ^ 32, s)

/-- Read an 8-byte little-endian signed word (two's complement). -/
def readI64LE (s : ByteStream) : Except DecodeErr (Int × ByteStream) :=
  match readLEBytes 8 s with
  | .error e => .error e
  | .ok (n, s) =>
    .ok (if n < 2 ^ 63 then (n : Int) else (n : Int) - 2 ^ 64, s)

/-- Read 32 raw bytes of a `uint256` (little-endian value). -/
def readU256 (s : ByteStream) : Except DecodeErr (Nat × ByteStream) :=
  readLEBytes 32 s

/-- Modelled from the spec: `ReadCompactSize` (serialize.h is not in the
excerpt), mirroring `writeCompactSize`. -/
def readCompactSize (s : ByteStream) : Except DecodeErr (Nat × ByteStream) :=
  match readByte s with
  | .error e => .error e
  | .ok (b, s) =>
    if b < 253 then .ok (b, s)
    else if b = 253 then readLEBytes 2 s
    else if b = 254 then readLEBytes 4 s
    else readLEBytes 8 s

/-- Read `k` raw bytes. -/
def readBytesN (k : Nat) (s : ByteStream) :
    Except DecodeErr (List Nat × ByteStream) :=
  if k ≤ s.length then .ok (s.take k, s.drop k) else .error .streamErr

/-- Read a length-prefixed byte string. -/
def readByteVec (s : ByteStream) : Except DecodeErr (List Nat × ByteStream) :=
  match readCompactSize s with
  | .error e => .error e
  | .ok (n, s) => readBytesN n s

/-- Read `n` consecutive elements with the element reader `g`. -/
def readElems (g : ByteStream → Except DecodeErr (α × ByteStream)) :
    Nat → ByteStream → Except DecodeErr (List α × ByteStream)
  | 0, s => .ok ([], s)
  | n + 1, s =>
    match g s with
    | .error e => .error e
    | .ok (x, s) =>
      match readElems g n s with
      | .error e => .error e
      | .ok (xs, s) => .ok (x :: xs, s)

/-- Read a length-prefixed sequence of elements. -/
def readVec (g : ByteStream → Except DecodeErr (α × ByteStream))
    (s : ByteStream) : Except DecodeErr (List α × ByteStream) :=
  match readCompactSize s with
  | .error e => .error e
  | .ok (n, s) => readElems g n s

/-- Read a `COutPoint`. -/
def readOutPoint (s : ByteStream) :
    Except DecodeErr (COutPoint × ByteStream) :=
  match readU256 s with
  | .error e => .error e
  | .ok (h, s) =>
    match readU32LE s with
    | .error e => .error e
    | .ok (n, s) => .ok (⟨h, n⟩, s)

/-- Read a `CTxIn` (core fields only; a freshly read input has the
default-constructed empty witness stack). -/
def readTxIn (s : ByteStream) : Except DecodeErr (CTxIn × ByteStream) :=
  match readOutPoint s with
  | .error e => .error e
  | .ok (p, s) =>
    match readByteVec s with
    | .error e => .error e
    | .ok (sc, s) =>
      match readU32LE s with
      | .error e => .error e
      | .ok (sq, s) => .ok (⟨p, sc, sq, []⟩, s)

/-- Read a `CTxOut`. -/
def readTxOut (s : ByteStream) : Except DecodeErr (CTxOut × ByteStream) :=
  match readI64LE s with
  | .error e => .error e
  | .ok (v, s) =>
    match readByteVec s with
    | .error e => .error e
    | .ok (sc, s) => .ok (⟨v, sc⟩, s)

/-- Read one witness stack (`s >> tx.vin[i].scriptWitness.stack`). -/
def readWitnessStack (s : ByteStream) :
    Except DecodeErr (List (List Nat) × ByteStream) :=
  readVec readByteVec s

/-- The witness-reading loop of `UnserializeTransaction` (lines 264-266):
for each input in order, read its witness stack into it. -/
def readStacks : List CTxIn → ByteStream →
    Except DecodeErr (List CTxIn × ByteStream)
  | [], s => .ok ([], s)
  | i :: is, s =>
    match readWitnessStack s with
    | .error e => .error e
    | .ok (w, s) =>
      match readStacks is s with
      | .error e => .error e
      | .ok (rest, s) => .ok ({ i with scriptWitness := w } :: rest, s)

/-- The witness phase of `UnserializeTransaction` (lines 261-267):
`if ((flags & 1) && fAllowWitness) { flags ^= 1; read the stacks; }`.
Bit 0 of `flags` is `flags % 2`; since the branch knows bit 0 is set,
`flags ^= 1` clears it, i.e. subtracts 1. -/
def readWitnessPhase (tx : CMutableTransaction) (flags : Nat)
    (fAllowWitness : Bool) (s : ByteStream) :
    Except DecodeErr ((CMutableTransaction × Nat) × ByteStream) :=
  if flags % 2 = 1 ∧ fAllowWitness = true then
    match readStacks tx.vin s with
    | .error e => .error e
    | .ok (vinW, s) => .ok (({ tx with vin := vinW }, flags - 1), s)
  else .ok ((tx, flags), s)

/-- `UnserializeTransaction` (transaction.h lines 240-273) up to, but not
including, the final `if (flags) throw` check and the locktime read: the
version read, the vin read with the dummy/flags handling, the vout read,
and the witness phase. Returns the transaction so far together with the
residual `flags` value at the check point. -/
def readPreFlagsCheck (tx : CMutableTransaction) (fAllowWitness : Bool)
    (s : ByteStream) :
    Except DecodeErr ((CMutableTransaction × Nat) × ByteStream) :=
  match readI32LE s with
  | .error e => .error e
  | .ok (ver, s) =>
    -- unsigned char flags = 0; tx.vin.clear(); tx.vout.clear();
    let tx : CMutableTransaction :=
      { tx with nVersion := ver, vin := [], vout := [] }
    match readVec readTxIn s with
    | .error e => .error e
    | .ok (vin0, s) =>
      let tx := { tx with vin := vin0 }
      if vin0.length = 0 ∧ fAllowWitness = true then
        -- We read a dummy or an empty vin.
        match readByte s with
        | .error e => .error e
        | .ok (flags, s) =>
          if flags ≠ 0 then
            match readVec readTxIn s with
            | .error e => .error e
            | .ok (vin1, s) =>
              match readVec readTxOut s with
              | .error e => .error e
              | .ok (vout1, s) =>
                readWitnessPhase { tx with vin := vin1, vout := vout1 }
                  flags fAllowWitness s
          else
            -- flags == 0: the empty vin stands; no vout is read here.
            readWitnessPhase tx flags fAllowWitness s
      else
        -- We read a non-empty vin (or witness parsing is disallowed).
        match readVec readTxOut s with
        | .error e => .error e
        | .ok (vout0, s) =>
          -- flags is still its initial 0 on this path.
          readWitnessPhase { tx with vout := vout0 } 0 fAllowWitness s

/-- `UnserializeTransaction` (transaction.h lines 240-273) in full: the
phase above, then `if (flags) throw`, then the locktime read. The prior
contents of `tx` are threaded exactly as the C++ mutates them in place. -/
def UnserializeTransaction (tx : CMutableTransaction) (fAllowWitness : Bool)
    (s : ByteStream) :
    Except DecodeErr (CMutableTransaction × ByteStream) :=
  match readPreFlagsCheck tx fAllowWitness s with
  | .error e => .error e
  | .ok ((tx, flags), s) =>
    if flags ≠ 0 then .error .unknownOptionalData
    else
      match readU32LE s with
      | .error e => .error e
      | .ok (lock, s) => .ok ({ tx with nLockTime := lock }, s)

/-- Modelled from the spec: `CTransaction::GetHash` (the double-SHA256 in
transaction.cpp / hash.h is not in the excerpt) — computed by running the
codec with witness serialization suppressed (`SERIALIZE_TRANSACTION_NO_WITNESS`).
The hash function is injective by the spec's "collision assumed impossible",
so it is modelled as the serialized byte stream itself. -/
def GetHash (tx : CMutableTransaction) : ByteStream :=
  SerializeTransaction tx false

/-- Modelled from the spec: `CTransaction::GetWitnessHash` — the codec run
with witness serialization allowed, hashed; same injective modelling. -/
def GetWitnessHash (tx : CMutableTransaction) : ByteStream :=
  SerializeTransaction tx true

/-- An input with its witness stack cleared — what the legacy (witness-free)
wire format carries for that input. -/
def stripWitness (i : CTxIn) : CTxIn := { i with scriptWitness := [] }

/-- A transaction with every input's witness stack cleared. -/
def stripWitnessTx (tx : CMutableTransaction) : CMutableTransaction :=
  { tx with vin := tx.vin.map stripWitness }

/-- Replace the `nLockTime` of the partial result. -/
def patchLock (L : Nat) :
    (CMutableTransaction × Nat) × ByteStream →
      (CMutableTransaction × Nat) × ByteStream :=
  fun p => (({ p.1.1 with nLockTime := L }, p.1.2), p.2)

/-! ### Concrete transactions

Scenario 1 of the spec (legacy, no witness) and scenario 2 (the same
transaction with witness stack `[[0xAB]]` on its only input). The outpoint
hash whose 32 serialized bytes are `0x00` except a final `0x01` has
little-endian value `2 ^ 248`. -/

/-- Scenario 1: version 2; one input (hash bytes `00…01`, index 0, empty
script, sequence `0xFFFFFFFF`); one output (amount 5,000,000,000, script
`[0x51]`); locktime 0. -/
def scenario1Tx : CMutableTransaction :=
  { vin := [⟨⟨2 ^ 248, 0⟩, [], 0xFFFFFFFF, []⟩],
    vout := [⟨5000000000, [0x51]⟩],
    nVersion := 2, nLockTime := 0 }

/-- Scenario 2: scenario 1 with the input's witness stack holding the single
item `[0xAB]`. -/
def scenario2Tx : CMutableTransaction :=
  { scenario1Tx with
    vin := [⟨⟨2 ^ 248, 0⟩, [], 0xFFFFFFFF, [[0xAB]]⟩] }

/-- An all-default prior value for the in-place deserializer. -/
def txZero : CMutableTransaction := ⟨[], [], 0, 0⟩

/-- A transaction with no inputs and one output: the shape on which the
witness-mode round trip breaks, because the deserializer consumes the
output-count byte as the flags byte. -/
def txEmptyVin : CMutableTransaction := ⟨[], [⟨0, []⟩], 1, 0⟩

/-! ### Well-formedness

The ranges guaranteed by the C++ machine types: `uint256` values, `uint32_t`
indices/sequences/locktime, `int32_t` version, `int64_t` amount, and
`std::vector` sizes (`size_t`, below `2 ^ 64`). -/

/-- Machine-type ranges of a `COutPoint`. -/
def WFOutPoint (p : COutPoint) : Prop := p.hash < 2 ^ 256 ∧ p.n < 2 ^ 32

/-- Machine-type ranges of a `CTxIn`. -/
def WFTxIn (i : CTxIn) : Prop :=
  WFOutPoint i.prevout ∧ i.scriptSig.length < 2 ^ 64 ∧
    i.nSequence < 2 ^ 32 ∧ i.scriptWitness.length < 2 ^ 64 ∧
    ∀ w ∈ i.scriptWitness, w.length < 2 ^ 64

/-- Machine-type ranges of a `CTxOut`. -/
def WFTxOut (o : CTxOut) : Prop :=
  -(2 ^ 63) ≤ o.nValue ∧ o.nValue < 2 ^ 63 ∧ o.scriptPubKey.length < 2 ^ 64

/-- Machine-type ranges of a whole transaction. -/
def WFtx (tx : CMutableTransaction) : Prop :=
  (-(2 ^ 31) ≤ tx.nVersion ∧ tx.nVersion < 2 ^ 31) ∧
    tx.nLockTime < 2 ^ 32 ∧
    tx.vin.length < 2 ^ 64 ∧ tx.vout.length < 2 ^ 64 ∧
    (∀ i ∈ tx.vin, WFTxIn i) ∧ (∀ o ∈ tx.vout, WFTxOut o)

instance (p : COutPoint) : Decidable (WFOutPoint p) := by
  unfold WFOutPoint; infer_instance

instance (i : CTxIn) : Decidable (WFTxIn i) := by
  unfold WFTxIn; infer_instance

instance (o : CTxOut) : Decidable (WFTxOut o) := by
  unfold WFTxOut; infer_instance

instance (tx : CMutableTransaction) : Decidable (WFtx tx) := by
  unfold WFtx; infer_instance

/-! ### Round-trip lemmas for the primitive readers -/

theorem readLEBytes_putLEBytes :
    ∀ (k n : Nat) (r : ByteStream), n < 2 ^ (8 * k) →
      readLEBytes k (putLEBytes k n ++ r) = .ok (n, r) := by
  intro k
  induction k with
  | zero =>
    intro n r h
    have hn : n = 0 := by
      have h1 : (2 : Nat) ^ (8 * 0) = 1 := by norm_num
      omega
    subst hn
    rfl
  | succ k ih =>
    intro n r h
    have hpow : 2 ^ (8 * (k + 1)) = 2 ^ (8 * k) * 256 := by
      rw [Nat.mul_succ, pow_add]
      norm_num
    have hdiv : n / 256 < 2 ^ (8 * k) := by omega
    simp only [putLEBytes, List.cons_append, readLEBytes, readByte]
    rw [ih (n / 256) r hdiv]
    have hmod : n % 256 + 256 * (n / 256) = n := by omega
    simp [hmod]

theorem readCompactSize_writeCompactSize (n : Nat) (r : ByteStream)
    (h : n < 2 ^ 64) :
    readCompactSize (writeCompactSize n ++ r) = .ok (n, r) := by
  unfold writeCompactSize readCompactSize
  by_cases h1 : n < 253
  · simp [h1, readByte]
  · by_cases h2 : n ≤ 0xFFFF
    · have hb : n < 2 ^ (8 * 2) := by norm_num at h2 ⊢; omega
      simp [h1, h2, readByte, readLEBytes_putLEBytes 2 n r hb]
    · by_cases h3 : n ≤ 0xFFFFFFFF
      · have hb : n < 2 ^ (8 * 4) := by norm_num at h3 ⊢; omega
        simp [h1, h2, h3, readByte, readLEBytes_putLEBytes 4 n r hb]
      · have hb : n < 2 ^ (8 * 8) := by norm_num at h ⊢; omega
        simp [h1, h2, h3, readByte, readLEBytes_putLEBytes 8 n r hb]

theorem readBytesN_append (a r : ByteStream) :
    readBytesN a.length (a ++ r) = .ok (a, r) := by
  unfold readBytesN
  rw [if_pos (by simp)]
  simp

theorem readByteVec_putByteVec (a : List Nat) (r : ByteStream)
    (h : a.length < 2 ^ 64) :
    readByteVec (putByteVec a ++ r) = .ok (a, r) := by
  unfold readByteVec putByteVec
  rw [List.append_assoc, readCompactSize_writeCompactSize a.length (a ++ r) h]
  exact readBytesN_append a r

theorem readU32LE_putU32LE (n : Nat) (r : ByteStream) (h : n < 2 ^ 32) :
    readU32LE (putU32LE n ++ r) = .ok (n, r) := by
  unfold readU32LE putU32LE
  exact readLEBytes_putLEBytes 4 n r (by norm_num at h ⊢; omega)

theorem readU256_putU256 (h : Nat) (r : ByteStream) (hh : h < 2 ^ 256) :
    readU256 (putU256 h ++ r) = .ok (h, r) := by
  unfold readU256 putU256
  exact readLEBytes_putLEBytes 32 h r (by norm_num at hh ⊢; omega)

theorem readOutPoint_putOutPoint (p : COutPoint) (r : ByteStream)
    (h : WFOutPoint p) :
    readOutPoint (putOutPoint p ++ r) = .ok (p, r) := by
  obtain ⟨h1, h2⟩ := h
  unfold readOutPoint putOutPoint
  rw [List.append_assoc, readU256_putU256 p.hash _ h1]
  simp only [readU32LE_putU32LE p.n r h2]

theorem readI32LE_putI32LE (v : Int) (r : ByteStream)
    (h1 : -(2 ^ 31) ≤ v) (h2 : v < 2 ^ 31) :
    readI32LE (putI32LE v ++ r) = .ok (v, r) := by
  unfold readI32LE putI32LE
  set m : Nat := (v % (2 ^ 32 : Int)).toNat with hm
  have hnn : (0 : Int) ≤ v % (2 ^ 32 : Int) := Int.emod_nonneg v (by norm_num)
  have hlt : v % (2 ^ 32 : Int) < 2 ^ 32 := Int.emod_lt_of_pos v (by norm_num)
  have hcast : (m : Int) = v % (2 ^ 32 : Int) := Int.toNat_of_nonneg hnn
  have hmlt : m < 2 ^ (8 * 4) := by
    have hx : (m : Int) < 2 ^ 32 := by rw [hcast]; exact hlt
    norm_num at hx ⊢
    exact_mod_cast hx
  rw [readLEBytes_putLEBytes 4 m r hmlt]
  have hval : (if m < 2 ^ 31 then (m : Int) else (m : Int) - 2 ^ 32) = v := by
    by_cases hc : m < 2 ^ 31
    · rw [if_pos hc]
      have : (m : Int) < 2 ^ 31 := by exact_mod_cast hc
      omega
    · rw [if_neg hc]
      have : ¬ ((m : Int) < 2 ^ 31) := by
        intro hcontra
        exact hc (by exact_mod_cast hcontra)
      omega
  norm_num at hval ⊢
  simp [hval]

theorem readI64LE_putI64LE (v : Int) (r : ByteStream)
    (h1 : -(2 ^ 63) ≤ v) (h2 : v < 2 ^ 63) :
    readI64LE (putI64LE v ++ r) = .ok (v, r) := by
  unfold readI64LE putI64LE
  set m : Nat := (v % (2 ^ 64 : Int)).toNat with hm
  have hnn : (0 : Int) ≤ v % (2 ^ 64 : Int) := Int.emod_nonneg v (by norm_num)
  have hlt : v % (2 ^ 64 : Int) < 2 ^ 64 := Int.emod_lt_of_pos v (by norm_num)
  have hcast : (m : Int) = v % (2 ^ 64 : Int) := Int.toNat_of_nonneg hnn
  have hmlt : m < 2 ^ (8 * 8) := by
    have hx : (m : Int) < 2 ^ 64 := by rw [hcast]; exact hlt
    norm_num at hx ⊢
    exact_mod_cast hx
  rw [readLEBytes_putLEBytes 8 m r hmlt]
  have hval : (if m < 2 ^ 63 then (m : Int) else (m : Int) - 2 ^ 64) = v := by
    by_cases hc : m < 2 ^ 63
    · rw [if_pos hc]
      have : (m : Int) < 2 ^ 63 := by exact_mod_cast hc
      omega
    · rw [if_neg hc]
      have : ¬ ((m : Int) < 2 ^ 63) := by
        intro hcontra
        exact hc (by exact_mod_cast hcontra)
      omega
  norm_num at hval ⊢
  simp [hval]

theorem readTxIn_putTxInCore (i : CTxIn) (r : ByteStream) (h : WFTxIn i) :
    readTxIn (putTxInCore i ++ r) = .ok (stripWitness i, r) := by
  obtain ⟨hp, hs, hq, _, _⟩ := h
  unfold readTxIn putTxInCore
  rw [List.append_assoc, List.append_assoc,
    readOutPoint_putOutPoint i.prevout _ hp]
  simp only [readByteVec_putByteVec i.scriptSig _ hs,
    readU32LE_putU32LE i.nSequence r hq]
  rfl

theorem readTxOut_putTxOut (o : CTxOut) (r : ByteStream) (h : WFTxOut o) :
    readTxOut (putTxOut o ++ r) = .ok (o, r) := by
  obtain ⟨h1, h2, h3⟩ := h
  unfold readTxOut putTxOut
  rw [List.append_assoc, readI64LE_putI64LE o.nValue _ h1 h2]
  simp only [readByteVec_putByteVec o.scriptPubKey r h3]

theorem readElems_flatten
    (g : ByteStream → Except DecodeErr (β × ByteStream))
    (f : α → List Nat) (φ : α → β) :
    ∀ (l : List α) (r : ByteStream),
      (∀ x ∈ l, ∀ t : ByteStream, g (f x ++ t) = .ok (φ x, t)) →
      readElems g l.length ((l.map f).flatten ++ r) = .ok (l.map φ, r) := by
  intro l
  induction l with
  | nil => intro r _; rfl
  | cons x xs ih =>
    intro r hall
    simp only [List.map_cons, List.flatten_cons, List.length_cons,
      List.append_assoc, readElems]
    rw [hall x (by simp) _]
    simp only [ih r (fun y hy t => hall y (by simp [hy]) t)]

theorem readVec_putVec
    (g : ByteStream → Except DecodeErr (β × ByteStream))
    (f : α → List Nat) (φ : α → β) (l : List α) (r : ByteStream)
    (hlen : l.length < 2 ^ 64)
    (hall : ∀ x ∈ l, ∀ t : ByteStream, g (f x ++ t) = .ok (φ x, t)) :
    readVec g (putVec f l ++ r) = .ok (l.map φ, r) := by
  unfold readVec putVec
  rw [List.append_assoc, readCompactSize_writeCompactSize l.length _ hlen]
  simp only [readElems_flatten g f φ l r hall]

theorem readWitnessStack_putWitnessStack (w : List (List Nat))
    (r : ByteStream) (hlen : w.length < 2 ^ 64)
    (hall : ∀ x ∈ w, x.length < 2 ^ 64) :
    readWitnessStack (putWitnessStack w ++ r) = .ok (w, r) := by
  unfold readWitnessStack putWitnessStack
  have := readVec_putVec readByteVec putByteVec id w r hlen
    (fun x hx t => readByteVec_putByteVec x t (hall x hx))
  simpa using this

theorem readStacks_flatten :
    ∀ (vin : List CTxIn) (r : ByteStream),
      (∀ i ∈ vin, i.scriptWitness.length < 2 ^ 64 ∧
        ∀ w ∈ i.scriptWitness, w.length < 2 ^ 64) →
      readStacks (vin.map stripWitness)
        ((vin.map fun i => putWitnessStack i.scriptWitness).flatten ++ r) =
        .ok (vin, r) := by
  intro vin
  induction vin with
  | nil => intro r _; rfl
  | cons i is ih =>
    intro r hall
    simp only [List.map_cons, List.flatten_cons, List.append_assoc, readStacks]
    obtain ⟨h1, h2⟩ := hall i (by simp)
    rw [show stripWitness i = ⟨i.prevout, i.scriptSig, i.nSequence, []⟩ from rfl]
    rw [readWitnessStack_putWitnessStack i.scriptWitness _ h1 h2]
    simp only [ih r (fun j hj => hall j (by simp [hj]))]

/-! ### Error classification

Every failure of the primitive readers is a `streamErr`; the
`unknownOptionalData` error arises only at `UnserializeTransaction`'s final
flags check. -/

theorem readByte_err {s : ByteStream} {e : DecodeErr}
    (h : readByte s = .error e) : e = .streamErr := by
  cases s with
  | nil =>
    simp only [readByte, Except.error.injEq] at h
    exact h.symm
  | cons b t => simp [readByte] at h

theorem readLEBytes_err :
    ∀ {k : Nat} {s : ByteStream} {e : DecodeErr},
      readLEBytes k s = .error e → e = .streamErr := by
  intro k
  induction k with
  | zero => intro s e h; simp [readLEBytes] at h
  | succ k ih =>
    intro s e h
    rw [readLEBytes] at h
    cases hb : readByte s with
    | error e1 =>
      rw [hb] at h
      cases h
      exact readByte_err hb
    | ok p =>
      obtain ⟨b, t⟩ := p
      rw [hb] at h
      simp only at h
      cases hr : readLEBytes k t with
      | error e2 =>
        rw [hr] at h
        cases h
        exact ih hr
      | ok q =>
        obtain ⟨v, u⟩ := q
        rw [hr] at h
        simp at h

theorem readCompactSize_err {s : ByteStream} {e : DecodeErr}
    (h : readCompactSize s = .error e) : e = .streamErr := by
  rw [readCompactSize] at h
  cases hb : readByte s with
  | error e1 =>
    rw [hb] at h
    cases h
    exact readByte_err hb
  | ok p =>
    obtain ⟨b, t⟩ := p
    rw [hb] at h
    simp only at h
    by_cases h1 : b < 253
    · simp [h1] at h
    · rw [if_neg h1] at h
      by_cases h2 : b = 253
      · rw [if_pos h2] at h
        exact readLEBytes_err h
      · rw [if_neg h2] at h
        by_cases h3 : b = 254
        · rw [if_pos h3] at h
          exact readLEBytes_err h
        · rw [if_neg h3] at h
          exact readLEBytes_err h

theorem readBytesN_err {k : Nat} {s : ByteStream} {e : DecodeErr}
    (h : readBytesN k s = .error e) : e = .streamErr := by
  unfold readBytesN at h
  by_cases hk : k ≤ s.length
  · simp [hk] at h
  · rw [if_neg hk] at h
    cases h
    rfl

theorem readByteVec_err {s : ByteStream} {e : DecodeErr}
    (h : readByteVec s = .error e) : e = .streamErr := by
  rw [readByteVec] at h
  cases hc : readCompactSize s with
  | error e1 =>
    rw [hc] at h
    cases h
    exact readCompactSize_err hc
  | ok p =>
    obtain ⟨n, t⟩ := p
    rw [hc] at h
    simp only at h
    exact readBytesN_err h

theorem readU32LE_err {s : ByteStream} {e : DecodeErr}
    (h : readU32LE s = .error e) : e = .streamErr :=
  readLEBytes_err h

theorem readI32LE_err {s : ByteStream} {e : DecodeErr}
    (h : readI32LE s = .error e) : e = .streamErr := by
  rw [readI32LE] at h
  cases hr : readLEBytes 4 s with
  | error e1 =>
    rw [hr] at h
    cases h
    exact readLEBytes_err hr
  | ok p =>
    obtain ⟨n, t⟩ := p
    rw [hr] at h
    simp at h

theorem readI64LE_err {s : ByteStream} {e : DecodeErr}
    (h : readI64LE s = .error e) : e = .streamErr := by
  rw [readI64LE] at h
  cases hr : readLEBytes 8 s with
  | error e1 =>
    rw [hr] at h
    cases h
    exact readLEBytes_err hr
  | ok p =>
    obtain ⟨n, t⟩ := p
    rw [hr] at h
    simp at h

theorem readElems_err
    {g : ByteStream → Except DecodeErr (α × ByteStream)}
    (hg : ∀ {s : ByteStream} {e : DecodeErr}, g s = .error e → e = .streamErr) :
    ∀ {n : Nat} {s : ByteStream} {e : DecodeErr},
      readElems g n s = .error e → e = .streamErr := by
  intro n
  induction n with
  | zero => intro s e h; simp [readElems] at h
  | succ n ih =>
    intro s e h
    rw [readElems] at h
    cases hx : g s with
    | error e1 =>
      rw [hx] at h
      cases h
      exact hg hx
    | ok p =>
      obtain ⟨x, t⟩ := p
      rw [hx] at h
      simp only at h
      cases hr : readElems g n t with
      | error e2 =>
        rw [hr] at h
        cases h
        exact ih hr
      | ok q =>
        obtain ⟨xs, u⟩ := q
        rw [hr] at h
        simp at h

theorem readVec_err
    {g : ByteStream → Except DecodeErr (α × ByteStream)}
    (hg : ∀ {s : ByteStream} {e : DecodeErr}, g s = .error e → e = .streamErr)
    {s : ByteStream} {e : DecodeErr}
    (h : readVec g s = .error e) : e = .streamErr := by
  rw [readVec] at h
  cases hc : readCompactSize s with
  | error e1 =>
    rw [hc] at h
    cases h
    exact readCompactSize_err hc
  | ok p =>
    obtain ⟨n, t⟩ := p
    rw [hc] at h
    simp only at h
    exact readElems_err hg h

theorem readOutPoint_err {s : ByteStream} {e : DecodeErr}
    (h : readOutPoint s = .error e) : e = .streamErr := by
  rw [readOutPoint] at h
  cases h1 : readU256 s with
  | error e1 =>
    rw [h1] at h
    cases h
    exact readLEBytes_err h1
  | ok p =>
    obtain ⟨hh, t⟩ := p
    rw [h1] at h
    simp only at h
    cases h2 : readU32LE t with
    | error e2 =>
      rw [h2] at h
      cases h
      exact readU32LE_err h2
    | ok q =>
      obtain ⟨n, u⟩ := q
      rw [h2] at h
      simp at h

theorem readTxIn_err {s : ByteStream} {e : DecodeErr}
    (h : readTxIn s = .error e) : e = .streamErr := by
  rw [readTxIn] at h
  cases h1 : readOutPoint s with
  | error e1 =>
    rw [h1] at h
    cases h
    exact readOutPoint_err h1
  | ok p =>
    obtain ⟨pv, t⟩ := p
    rw [h1] at h
    simp only at h
    cases h2 : readByteVec t with
    | error e2 =>
      rw [h2] at h
      cases h
      exact readByteVec_err h2
    | ok q =>
      obtain ⟨sc, u⟩ := q
      rw [h2] at h
      simp only at h
      cases h3 : readU32LE u with
      | error e3 =>
        rw [h3] at h
        cases h
        exact readU32LE_err h3
      | ok w =>
        obtain ⟨sq, x⟩ := w
        rw [h3] at h
        simp at h

theorem readTxOut_err {s : ByteStream} {e : DecodeErr}
    (h : readTxOut s = .error e) : e = .streamErr := by
  rw [readTxOut] at h
  cases h1 : readI64LE s with
  | error e1 =>
    rw [h1] at h
    cases h
    exact readI64LE_err h1
  | ok p =>
    obtain ⟨v, t⟩ := p
    rw [h1] at h
    simp only at h
    cases h2 : readByteVec t with
    | error e2 =>
      rw [h2] at h
      cases h
      exact readByteVec_err h2
    | ok q =>
      obtain ⟨sc, u⟩ := q
      rw [h2] at h
      simp at h

theorem readWitnessStack_err {s : ByteStream} {e : DecodeErr}
    (h : readWitnessStack s = .error e) : e = .streamErr :=
  readVec_err (fun hx => readByteVec_err hx) h

theorem readStacks_err :
    ∀ {l : List CTxIn} {s : ByteStream} {e : DecodeErr},
      readStacks l s = .error e → e = .streamErr := by
  intro l
  induction l with
  | nil => intro s e h; simp [readStacks] at h
  | cons i is ih =>
    intro s e h
    rw [readStacks] at h
    cases h1 : readWitnessStack s with
    | error e1 =>
      rw [h1] at h
      cases h
      exact readWitnessStack_err h1
    | ok p =>
      obtain ⟨w, t⟩ := p
      rw [h1] at h
      simp only at h
      cases h2 : readStacks is t with
      | error e2 =>
        rw [h2] at h
        cases h
        exact ih h2
      | ok q =>
        obtain ⟨rest, u⟩ := q
        rw [h2] at h
        simp at h

theorem readWitnessPhase_err {tx : CMutableTransaction} {flags : Nat}
    {fw : Bool} {s : ByteStream} {e : DecodeErr}
    (h : readWitnessPhase tx flags fw s = .error e) : e = .streamErr := by
  rw [readWitnessPhase] at h
  by_cases hc : flags % 2 = 1 ∧ fw = true
  · rw [if_pos hc] at h
    cases h1 : readStacks tx.vin s with
    | error e1 =>
      rw [h1] at h
      cases h
      exact readStacks_err h1
    | ok p =>
      obtain ⟨vw, t⟩ := p
      rw [h1] at h
      simp at h
  · rw [if_neg hc] at h
    simp at h

theorem readPreFlagsCheck_err {tx : CMutableTransaction} {fw : Bool}
    {s : ByteStream} {e : DecodeErr}
    (h : readPreFlagsCheck tx fw s = .error e) : e = .streamErr := by
  rw [readPreFlagsCheck] at h
  cases h1 : readI32LE s with
  | error e1 =>
    rw [h1] at h
    cases h
    exact readI32LE_err h1
  | ok p =>
    obtain ⟨ver, s1⟩ := p
    rw [h1] at h
    simp only at h
    cases h2 : readVec readTxIn s1 with
    | error e2 =>
      rw [h2] at h
      cases h
      exact readVec_err (fun hx => readTxIn_err hx) h2
    | ok q =>
      obtain ⟨vin0, s2⟩ := q
      rw [h2] at h
      simp only at h
      by_cases hc : vin0.length = 0 ∧ fw = true
      · rw [if_pos hc] at h
        cases h3 : readByte s2 with
        | error e3 =>
          rw [h3] at h
          cases h
          exact readByte_err h3
        | ok r =>
          obtain ⟨flags, s3⟩ := r
          rw [h3] at h
          simp only at h
          by_cases hf : flags ≠ 0
          · rw [if_pos hf] at h
            cases h4 : readVec readTxIn s3 with
            | error e4 =>
              rw [h4] at h
              cases h
              exact readVec_err (fun hx => readTxIn_err hx) h4
            | ok q1 =>
              obtain ⟨vin1, s4⟩ := q1
              rw [h4] at h
              simp only at h
              cases h5 : readVec readTxOut s4 with
              | error e5 =>
                rw [h5] at h
                cases h
                exact readVec_err (fun hx => readTxOut_err hx) h5
              | ok q2 =>
                obtain ⟨vout1, s5⟩ := q2
                rw [h5] at h
                simp only at h
                exact readWitnessPhase_err h
          · rw [if_neg hf] at h
            exact readWitnessPhase_err h
      · rw [if_neg hc] at h
        cases h6 : readVec readTxOut s2 with
        | error e6 =>
          rw [h6] at h
          cases h
          exact readVec_err (fun hx => readTxOut_err hx) h6
        | ok q3 =>
          obtain ⟨vout0, s6⟩ := q3
          rw [h6] at h
          simp only at h
          exact readWitnessPhase_err h

/-! ### Shape of the serializer output -/

/-- When the mode disallows witnesses, or the transaction carries none,
`flags` stays 0 and the output is the legacy four-field layout. -/
theorem serialize_eq_legacy (tx : CMutableTransaction) (fw : Bool)
    (h : fw = false ∨ tx.HasWitness = false) :
    SerializeTransaction tx fw =
      putI32LE tx.nVersion ++
        (putVec putTxInCore tx.vin ++
          (putVec putTxOut tx.vout ++ putU32LE tx.nLockTime)) := by
  rcases h with h | h <;>
    simp [SerializeTransaction, h, List.append_assoc]

/-- When the mode allows witnesses and some input carries one, the output is
the extended layout: version, dummy count byte 0, flags byte 1, inputs,
outputs, witness stacks, locktime. -/
theorem serialize_eq_extended (tx : CMutableTransaction)
    (h : tx.HasWitness = true) :
    SerializeTransaction tx true =
      putI32LE tx.nVersion ++
        (0 :: 1 ::
          (putVec putTxInCore tx.vin ++
            (putVec putTxOut tx.vout ++
              ((tx.vin.map fun i => putWitnessStack i.scriptWitness).flatten ++
                putU32LE tx.nLockTime)))) := by
  simp [SerializeTransaction, h, putVec, writeCompactSize, List.append_assoc]

/-- A transaction reporting no witness data has every stack empty. -/
theorem hasWitness_false_stacks (tx : CMutableTransaction)
    (h : tx.HasWitness = false) : ∀ i ∈ tx.vin, i.scriptWitness = [] := by
  intro i hi
  unfold CMutableTransaction.HasWitness at h
  rw [List.any_eq_false] at h
  have hx := h i hi
  simpa [scriptWitnessIsNull, List.isEmpty_iff] using hx

/-- Stripping witness stacks that are already empty is the identity. -/
theorem map_stripWitness_of_forall (l : List CTxIn)
    (h : ∀ i ∈ l, i.scriptWitness = []) : l.map stripWitness = l := by
  induction l with
  | nil => rfl
  | cons i is ih =>
    simp only [List.map_cons]
    rw [ih (fun j hj => h j (List.mem_cons_of_mem _ hj))]
    have hw := h i (List.mem_cons_self i is)
    have hs : stripWitness i = i := by
      cases i with
      | mk pv sc sq w => simp_all [stripWitness]
    rw [hs]

/-- A transaction with no witness data is unchanged by stripping. -/
theorem stripWitnessTx_of_not_hasWitness (tx : CMutableTransaction)
    (h : tx.HasWitness = false) : stripWitnessTx tx = tx := by
  unfold stripWitnessTx
  rw [map_stripWitness_of_forall tx.vin (hasWitness_false_stacks tx h)]

/-! ### Round trip of the full codec -/

/-- Deserializing a legacy-layout stream: allowed whenever the mode disallows
witnesses, or the encoded input list is nonempty (so the dummy branch is not
taken). The witness stacks come back empty. -/
theorem unserialize_legacy (tx0 tx : CMutableTransaction) (r : ByteStream)
    (h : WFtx tx) (fw : Bool) (hmode : fw = false ∨ tx.vin ≠ []) :
    UnserializeTransaction tx0 fw
      (putI32LE tx.nVersion ++
        (putVec putTxInCore tx.vin ++
          (putVec putTxOut tx.vout ++ (putU32LE tx.nLockTime ++ r)))) =
      .ok (stripWitnessTx tx, r) := by
  obtain ⟨hver, hlock, hvinlen, hvoutlen, hvins, hvouts⟩ := h
  have hRver : ∀ t : ByteStream,
      readI32LE (putI32LE tx.nVersion ++ t) = .ok (tx.nVersion, t) :=
    fun t => readI32LE_putI32LE tx.nVersion t hver.1 hver.2
  have hRvin : ∀ t : ByteStream,
      readVec readTxIn (putVec putTxInCore tx.vin ++ t) =
        .ok (tx.vin.map stripWitness, t) :=
    fun t => readVec_putVec readTxIn putTxInCore stripWitness tx.vin t hvinlen
      (fun i hi u => readTxIn_putTxInCore i u (hvins i hi))
  have hRvout : ∀ t : ByteStream,
      readVec readTxOut (putVec putTxOut tx.vout ++ t) = .ok (tx.vout, t) := by
    intro t
    have := readVec_putVec readTxOut putTxOut id tx.vout t hvoutlen
      (fun o ho u => readTxOut_putTxOut o u (hvouts o ho))
    simpa using this
  have hRlock : ∀ t : ByteStream,
      readU32LE (putU32LE tx.nLockTime ++ t) = .ok (tx.nLockTime, t) :=
    fun t => readU32LE_putU32LE tx.nLockTime t hlock
  have hcond : ¬ ((tx.vin.map stripWitness).length = 0 ∧ fw = true) := by
    rcases hmode with hf | hvin
    · subst hf
      simp
    · intro hx
      exact hvin (List.eq_nil_of_length_eq_zero (by simpa using hx.1))
  simp only [UnserializeTransaction, readPreFlagsCheck, hRver, hRvin]
  rw [if_neg hcond]
  simp only [hRvout, readWitnessPhase]
  rw [if_neg (by simp)]
  simp only [hRlock]
  rw [if_neg (by simp)]
  simp [stripWitnessTx]

/-- Deserializing an extended-layout stream in witness mode returns the
transaction with all its witness stacks. -/
theorem unserialize_extended (tx0 tx : CMutableTransaction) (r : ByteStream)
    (h : WFtx tx) :
    UnserializeTransaction tx0 true
      (putI32LE tx.nVersion ++
        (0 :: 1 ::
          (putVec putTxInCore tx.vin ++
            (putVec putTxOut tx.vout ++
              ((tx.vin.map fun i => putWitnessStack i.scriptWitness).flatten ++
                (putU32LE tx.nLockTime ++ r)))))) = .ok (tx, r) := by
  obtain ⟨hver, hlock, hvinlen, hvoutlen, hvins, hvouts⟩ := h
  have hRver : ∀ t : ByteStream,
      readI32LE (putI32LE tx.nVersion ++ t) = .ok (tx.nVersion, t) :=
    fun t => readI32LE_putI32LE tx.nVersion t hver.1 hver.2
  have hRvin : ∀ t : ByteStream,
      readVec readTxIn (putVec putTxInCore tx.vin ++ t) =
        .ok (tx.vin.map stripWitness, t) :=
    fun t => readVec_putVec readTxIn putTxInCore stripWitness tx.vin t hvinlen
      (fun i hi u => readTxIn_putTxInCore i u (hvins i hi))
  have hRvout : ∀ t : ByteStream,
      readVec readTxOut (putVec putTxOut tx.vout ++ t) = .ok (tx.vout, t) := by
    intro t
    have := readVec_putVec readTxOut putTxOut id tx.vout t hvoutlen
      (fun o ho u => readTxOut_putTxOut o u (hvouts o ho))
    simpa using this
  have hRlock : ∀ t : ByteStream,
      readU32LE (putU32LE tx.nLockTime ++ t) = .ok (tx.nLockTime, t) :=
    fun t => readU32LE_putU32LE tx.nLockTime t hlock
  have hRstacks : ∀ t : ByteStream,
      readStacks (tx.vin.map stripWitness)
        ((tx.vin.map fun i => putWitnessStack i.scriptWitness).flatten ++ t) =
        .ok (tx.vin, t) :=
    fun t => readStacks_flatten tx.vin t
      (fun i hi => ⟨(hvins i hi).2.2.2.1, (hvins i hi).2.2.2.2⟩)
  have hdummy : ∀ t : ByteStream, readVec readTxIn (0 :: t) = .ok ([], t) := by
    intro t
    simp [readVec, readCompactSize, readByte, readElems]
  simp only [UnserializeTransaction, readPreFlagsCheck, hRver, hdummy]
  rw [if_pos (show (([] : List CTxIn).length = 0 ∧ True) by simp)]
  simp only [readByte]
  rw [if_pos (show (1 : Nat) ≠ 0 by norm_num)]
  simp only [hRvin, hRvout, readWitnessPhase]
  rw [if_pos (show (True ∧ True) by simp)]
  simp only [hRstacks]
  rw [if_neg (show ¬ ((1 : Nat) - 1 ≠ 0) by norm_num)]
  simp [hRlock]

/-- Full-codec round trip. In disabled (legacy) mode the round trip holds for
every transaction, up to the witness stacks, which the format does not carry;
in witness mode it holds whenever the input list is nonempty. -/
theorem unserialize_serialize (tx0 tx : CMutableTransaction) (h : WFtx tx) :
    UnserializeTransaction tx0 false (SerializeTransaction tx false) =
        .ok (stripWitnessTx tx, []) ∧
      (tx.vin ≠ [] →
        UnserializeTransaction tx0 true (SerializeTransaction tx true) =
          .ok (tx, [])) := by
  constructor
  · rw [serialize_eq_legacy tx false (Or.inl rfl)]
    have h1 := unserialize_legacy tx0 tx [] h false (Or.inl rfl)
    simpa using h1
  · intro hvin
    cases hw : tx.HasWitness with
    | true =>
      rw [serialize_eq_extended tx hw]
      have h1 := unserialize_extended tx0 tx [] h
      simpa using h1
    | false =>
      rw [serialize_eq_legacy tx true (Or.inr hw)]
      have h1 := unserialize_legacy tx0 tx [] h true (Or.inr hvin)
      rw [stripWitnessTx_of_not_hasWitness tx hw] at h1
      simpa using h1

/-- The witness-mode serialization is injective on well-formed transactions
with a nonempty input list. -/
theorem serialize_witness_injective (tx1 tx2 : CMutableTransaction)
    (h1 : WFtx tx1) (h2 : WFtx tx2)
    (hv1 : tx1.vin ≠ []) (hv2 : tx2.vin ≠ [])
    (he : SerializeTransaction tx1 true = SerializeTransaction tx2 true) :
    tx1 = tx2 := by
  have r1 := (unserialize_serialize txZero tx1 h1).2 hv1
  have r2 := (unserialize_serialize txZero tx2 h2).2 hv2
  rw [he, r2] at r1
  have h3 : (tx2, ([] : ByteStream)) = (tx1, []) := Except.ok.inj r1
  exact (congrArg Prod.fst h3).symm

/-- The legacy serialization depends only on the witness-stripped fields. -/
theorem serialize_legacy_congr (tx1 tx2 : CMutableTransaction)
    (hver : tx1.nVersion = tx2.nVersion)
    (hlock : tx1.nLockTime = tx2.nLockTime)
    (hvout : tx1.vout = tx2.vout)
    (hvin : tx1.vin.map stripWitness = tx2.vin.map stripWitness) :
    SerializeTransaction tx1 false = SerializeTransaction tx2 false := by
  have hcore : ∀ l : List CTxIn,
      l.map putTxInCore = (l.map stripWitness).map putTxInCore := by
    intro l
    rw [List.map_map]
    rfl
  have hlen : tx1.vin.length = tx2.vin.length := by
    have := congrArg List.length hvin
    simpa using this
  rw [serialize_eq_legacy tx1 false (Or.inl rfl),
    serialize_eq_legacy tx2 false (Or.inl rfl),
    hver, hlock, hvout]
  unfold putVec
  rw [hlen, hcore tx1.vin, hcore tx2.vin, hvin]

/-- Two input lists agreeing on stripped cores and on witness stacks agree. -/
theorem vin_ext : ∀ (l1 l2 : List CTxIn),
    l1.map stripWitness = l2.map stripWitness →
    l1.map CTxIn.scriptWitness = l2.map CTxIn.scriptWitness →
    l1 = l2 := by
  intro l1
  induction l1 with
  | nil =>
    intro l2 hs _
    cases l2 with
    | nil => rfl
    | cons j js => simp at hs
  | cons i is ih =>
    intro l2 hs hw
    cases l2 with
    | nil => simp at hs
    | cons j js =>
      simp only [List.map_cons, List.cons.injEq] at hs hw
      rw [ih js hs.2 hw.2]
      have hij : i = j := by
        cases i with
        | mk pv1 sc1 sq1 w1 =>
          cases j with
          | mk pv2 sc2 sq2 w2 =>
            have h1 := hs.1
            have h2 := hw.1
            simp only [stripWitness] at h1
            simp only [CTxIn.mk.injEq] at h1 ⊢
            exact ⟨h1.1, h1.2.1, h1.2.2.1, h2⟩
      rw [hij]

/-! ### Independence from the prior target value

The only field of the prior target that survives into the result of
`readPreFlagsCheck` is `nLockTime`, and the final locktime read overwrites
it, so the deserialized value never depends on the prior contents. -/

theorem readWitnessPhase_patch (vi : List CTxIn) (vo : List CTxOut)
    (ve : Int) (L0 L : Nat) (f : Nat) (fw : Bool) (s : ByteStream) :
    readWitnessPhase ⟨vi, vo, ve, L⟩ f fw s =
      Except.map (patchLock L) (readWitnessPhase ⟨vi, vo, ve, L0⟩ f fw s) := by
  unfold readWitnessPhase
  by_cases hc : f % 2 = 1 ∧ fw = true
  · rw [if_pos hc, if_pos hc]
    cases h1 : readStacks vi s with
    | error e => simp [Except.map]
    | ok p =>
      obtain ⟨vw, t⟩ := p
      simp [Except.map, patchLock]
  · rw [if_neg hc, if_neg hc]
    simp [Except.map, patchLock]

theorem readPreFlagsCheck_patch (tx : CMutableTransaction) (fw : Bool)
    (s : ByteStream) :
    readPreFlagsCheck tx fw s =
      Except.map (patchLock tx.nLockTime) (readPreFlagsCheck txZero fw s) := by
  unfold readPreFlagsCheck
  cases h1 : readI32LE s with
  | error e => simp [Except.map]
  | ok p =>
    obtain ⟨ver, s1⟩ := p
    simp only
    cases h2 : readVec readTxIn s1 with
    | error e => simp [Except.map]
    | ok q =>
      obtain ⟨vin0, s2⟩ := q
      simp only
      by_cases hc : vin0.length = 0 ∧ fw = true
      · rw [if_pos hc, if_pos hc]
        cases h3 : readByte s2 with
        | error e => simp [Except.map]
        | ok r0 =>
          obtain ⟨flags, s3⟩ := r0
          simp only
          by_cases hf : flags ≠ 0
          · rw [if_pos hf, if_pos hf]
            cases h4 : readVec readTxIn s3 with
            | error e => simp [Except.map]
            | ok q1 =>
              obtain ⟨vin1, s4⟩ := q1
              simp only
              cases h5 : readVec readTxOut s4 with
              | error e => simp [Except.map]
              | ok q2 =>
                obtain ⟨vout1, s5⟩ := q2
                simp only
                exact readWitnessPhase_patch vin1 vout1 ver txZero.nLockTime
                  tx.nLockTime flags fw s5
          · rw [if_neg hf, if_neg hf]
            exact readWitnessPhase_patch vin0 [] ver txZero.nLockTime
              tx.nLockTime flags fw s3
      · rw [if_neg hc, if_neg hc]
        cases h6 : readVec readTxOut s2 with
        | error e => simp [Except.map]
        | ok q3 =>
          obtain ⟨vout0, s6⟩ := q3
          simp only
          exact readWitnessPhase_patch vin0 vout0 ver txZero.nLockTime
            tx.nLockTime 0 fw s6

/-- With witness parsing disallowed, the flags value at the check point is
always its initial 0. -/
theorem readPreFlagsCheck_false_flags {tx0 txp : CMutableTransaction}
    {flags : Nat} {rest s : ByteStream}
    (h : readPreFlagsCheck tx0 false s = .ok ((txp, flags), rest)) :
    flags = 0 := by
  unfold readPreFlagsCheck at h
  cases h1 : readI32LE s with
  | error e =>
    rw [h1] at h
    simp at h
  | ok p =>
    obtain ⟨ver, s1⟩ := p
    rw [h1] at h
    simp only at h
    cases h2 : readVec readTxIn s1 with
    | error e =>
      rw [h2] at h
      simp at h
    | ok q =>
      obtain ⟨vin0, s2⟩ := q
      rw [h2] at h
      simp only at h
      rw [if_neg (by simp : ¬ (vin0.length = 0 ∧ false = true))] at h
      cases h3 : readVec readTxOut s2 with
      | error e =>
        rw [h3] at h
        simp at h
      | ok q1 =>
        obtain ⟨vout0, s3⟩ := q1
        rw [h3] at h
        simp only at h
        unfold readWitnessPhase at h
        rw [if_neg (by simp : ¬ ((0 : Nat) % 2 = 1 ∧ false = true))] at h
        have := (Except.ok.inj h)
        have h4 := congrArg Prod.fst this
        have h5 := congrArg Prod.snd h4
        simpa using h5.symm

/-- Empty witness stacks on every input mean `HasWitness` is false. -/
theorem hasWitness_eq_false_of_stacks (tx : CMutableTransaction)
    (h : ∀ i ∈ tx.vin, i.scriptWitness = []) : tx.HasWitness = false := by
  unfold CMutableTransaction.HasWitness
  rw [List.any_eq_false]
  intro i hi
  simp [scriptWitnessIsNull, h i hi]

/-! ### The claims -/

/-- Claim C1, counterexample: for the transaction with no inputs and one
output, witness-mode deserialization of the witness-mode serialization
succeeds but returns a transaction with an empty output list (the encoder
emitted legacy layout, and the decoder consumed the output-count byte as
the flags byte), so the round trip does not return the original. -/
theorem claim_C1_counterexample :
    UnserializeTransaction txZero true (SerializeTransaction txEmptyVin true) =
        .ok (⟨[], [], 1, 0⟩, List.replicate 7 0) ∧
      (⟨[], [], 1, 0⟩ : CMutableTransaction) ≠ txEmptyVin := by
  constructor
  · decide
  · decide

/-- Claim C1, amended: for every machine-representable transaction,
deserializing the serialization returns the transaction with every field
intact — in disabled mode up to the witness stacks (which come back empty),
and in witness-enabled mode exactly, provided the input list is nonempty
(an input-less transaction's legacy layout is misread in witness mode, as
the counterexample shows). -/
theorem claim_C1_roundtrip (tx0 tx : CMutableTransaction) (h : WFtx tx) :
    UnserializeTransaction tx0 false (SerializeTransaction tx false) =
        .ok (stripWitnessTx tx, []) ∧
      (tx.vin ≠ [] →
        UnserializeTransaction tx0 true (SerializeTransaction tx true) =
          .ok (tx, [])) :=
  unserialize_serialize tx0 tx h

/-- Claim C1, witness: the round trip evaluated on the concrete scenario-2
transaction, in both modes. -/
theorem claim_C1_roundtrip_witness :
    UnserializeTransaction txZero false
        (SerializeTransaction scenario2Tx false) =
        .ok (stripWitnessTx scenario2Tx, []) ∧
      UnserializeTransaction txZero true
        (SerializeTransaction scenario2Tx true) = .ok (scenario2Tx, []) :=
  ⟨(claim_C1_roundtrip txZero scenario2Tx (by decide)).1,
    (claim_C1_roundtrip txZero scenario2Tx (by decide)).2 (by decide)⟩

/-- Claim C2: two transactions equal in version, locktime, outputs and the
inputs' outpoint/script/sequence cores (arbitrary witness stacks) have equal
`GetHash`; if they are distinct (equivalently, their stacks differ), their
`GetWitnessHash` values differ; and when every stack of both is empty, each
`GetWitnessHash` equals the `GetHash` and the two coincide. -/
theorem claim_C2_witness_exclusion (tx1 tx2 : CMutableTransaction)
    (hwf1 : WFtx tx1) (hwf2 : WFtx tx2)
    (hver : tx1.nVersion = tx2.nVersion)
    (hlock : tx1.nLockTime = tx2.nLockTime)
    (hvout : tx1.vout = tx2.vout)
    (hvin : tx1.vin.map stripWitness = tx2.vin.map stripWitness) :
    GetHash tx1 = GetHash tx2 ∧
      (tx1 ≠ tx2 → GetWitnessHash tx1 ≠ GetWitnessHash tx2) ∧
      ((∀ i ∈ tx1.vin, i.scriptWitness = []) →
        (∀ i ∈ tx2.vin, i.scriptWitness = []) →
        GetWitnessHash tx1 = GetHash tx1 ∧ GetWitnessHash tx2 = GetHash tx2 ∧
          GetWitnessHash tx1 = GetWitnessHash tx2) := by
  have hhash : GetHash tx1 = GetHash tx2 :=
    serialize_legacy_congr tx1 tx2 hver hlock hvout hvin
  refine ⟨hhash, ?_, ?_⟩
  · intro hne he
    apply hne
    by_cases hv1 : tx1.vin = []
    · have hv2 : tx2.vin = [] := by
        have := hvin
        rw [hv1] at this
        simpa using (List.map_eq_nil_iff.mp this.symm)
      cases tx1 with
      | mk vi1 vo1 ve1 lo1 =>
        cases tx2 with
        | mk vi2 vo2 ve2 lo2 => simp_all
    · have hv2 : tx2.vin ≠ [] := by
        intro h0
        apply hv1
        have := hvin
        rw [h0] at this
        simpa using (List.map_eq_nil_iff.mp this)
      exact serialize_witness_injective tx1 tx2 hwf1 hwf2 hv1 hv2 he
  · intro hs1 hs2
    have hw1 : tx1.HasWitness = false := hasWitness_eq_false_of_stacks tx1 hs1
    have hw2 : tx2.HasWitness = false := hasWitness_eq_false_of_stacks tx2 hs2
    have e1 : GetWitnessHash tx1 = GetHash tx1 := by
      unfold GetWitnessHash GetHash
      rw [serialize_eq_legacy tx1 true (Or.inr hw1),
        serialize_eq_legacy tx1 false (Or.inl rfl)]
    have e2 : GetWitnessHash tx2 = GetHash tx2 := by
      unfold GetWitnessHash GetHash
      rw [serialize_eq_legacy tx2 true (Or.inr hw2),
        serialize_eq_legacy tx2 false (Or.inl rfl)]
    exact ⟨e1, e2, by rw [e1, e2, hhash]⟩

/-- Claim C2, witness: scenario 1 and scenario 2 differ only in the witness
stack; their `GetHash` agree and their `GetWitnessHash` differ. -/
theorem claim_C2_witness_exclusion_witness :
    GetHash scenario1Tx = GetHash scenario2Tx ∧
      GetWitnessHash scenario1Tx ≠ GetWitnessHash scenario2Tx := by
  have h := claim_C2_witness_exclusion scenario1Tx scenario2Tx
    (by decide) (by decide) (by decide) (by decide) (by decide) (by decide)
  exact ⟨h.1, h.2.1 (by decide)⟩

/-- Claim C3: the serializer emits the dummy (empty input count, one byte 0)
immediately followed by the flags byte, whose value is exactly 1 (bit 0
only), precisely when the stream allows witnesses and some input has a
nonempty stack; otherwise the four legacy fields appear with no dummy and
no flags byte. -/
theorem claim_C3_dummy_flags (tx : CMutableTransaction) (fw : Bool) :
    SerializeTransaction tx fw =
      if fw && tx.HasWitness then
        putI32LE tx.nVersion ++
          (0 :: 1 ::
            (putVec putTxInCore tx.vin ++
              (putVec putTxOut tx.vout ++
                ((tx.vin.map fun i =>
                    putWitnessStack i.scriptWitness).flatten ++
                  putU32LE tx.nLockTime))))
      else
        putI32LE tx.nVersion ++
          (putVec putTxInCore tx.vin ++
            (putVec putTxOut tx.vout ++ putU32LE tx.nLockTime)) := by
  by_cases hb : (fw && tx.HasWitness) = true
  · rw [if_pos hb]
    have hb2 : fw = true ∧ tx.HasWitness = true := by simpa using hb
    obtain ⟨hf, hw⟩ := hb2
    subst hf
    exact serialize_eq_extended tx hw
  · rw [if_neg hb]
    cases hf : fw with
    | false => exact serialize_eq_legacy tx false (Or.inl rfl)
    | true =>
      subst hf
      cases hw : tx.HasWitness with
      | false => exact serialize_eq_legacy tx true (Or.inr hw)
      | true => simp [hw] at hb

/-- Claim C4: a transaction carrying no nonempty witness stack serializes
byte-for-byte identically in witness-enabled and disabled modes. -/
theorem claim_C4_no_witness_compaction (tx : CMutableTransaction)
    (h : tx.HasWitness = false) :
    SerializeTransaction tx true = SerializeTransaction tx false := by
  rw [serialize_eq_legacy tx true (Or.inr h),
    serialize_eq_legacy tx false (Or.inl rfl)]

/-- Claim C4, witness: scenario 1 carries no witness data and its two
serializations coincide. -/
theorem claim_C4_no_witness_compaction_witness :
    SerializeTransaction scenario1Tx true =
      SerializeTransaction scenario1Tx false :=
  claim_C4_no_witness_compaction scenario1Tx (by decide)

/-- Claim C5: deserialization fails with the malformed-encoding error
exactly when the parse reaches the flags check (after the witness phase,
which clears bit 0 only when it was set and witnesses are allowed, and
before any locktime byte is consumed) with a nonzero residual flags value;
every other stream either decodes or fails inside the stream collaborator. -/
theorem claim_C5_error_iff (tx0 : CMutableTransaction) (fw : Bool)
    (s : ByteStream) :
    UnserializeTransaction tx0 fw s = .error .unknownOptionalData ↔
      ∃ (txp : CMutableTransaction) (flags : Nat) (rest : ByteStream),
        readPreFlagsCheck tx0 fw s = .ok ((txp, flags), rest) ∧ flags ≠ 0 := by
  constructor
  · intro h
    cases hp : readPreFlagsCheck tx0 fw s with
    | error e =>
      unfold UnserializeTransaction at h
      rw [hp] at h
      have he := readPreFlagsCheck_err hp
      subst he
      simp at h
    | ok p =>
      obtain ⟨⟨txp, flags⟩, rest⟩ := p
      refine ⟨txp, flags, rest, rfl, ?_⟩
      intro hf0
      subst hf0
      unfold UnserializeTransaction at h
      rw [hp] at h
      simp only at h
      rw [if_neg (by simp)] at h
      cases hu : readU32LE rest with
      | error e =>
        rw [hu] at h
        have := readU32LE_err hu
        subst this
        simp at h
      | ok q =>
        obtain ⟨lock, t⟩ := q
        rw [hu] at h
        simp at h
  · rintro ⟨txp, flags, rest, hp, hf⟩
    unfold UnserializeTransaction
    rw [hp]
    simp only
    rw [if_pos hf]

/-- Claim C6, counterexample: the witness-mode serialization of the
scenario-2 transaction is not 67 bytes long. -/
theorem claim_C6_counterexample :
    ¬ ((SerializeTransaction scenario2Tx true).length = 67) := by
  decide

/-- Claim C6, amended: the witness-mode serialization of the scenario-2
transaction has exactly the claimed layout — version(4), dummy count 0,
flags 0x01, input count and input (1+41), output count and output (1+10),
witness stack count 1, item length 1, item 0xAB, locktime(4) — whose total
is 66 bytes (the claimed components sum to 66, not 67). -/
theorem claim_C6_layout :
    SerializeTransaction scenario2Tx true =
        [2, 0, 0, 0] ++ [0] ++ [1] ++
          ([1] ++ ((List.replicate 31 0 ++ [1]) ++ [0, 0, 0, 0] ++ [0] ++
            [255, 255, 255, 255])) ++
          ([1] ++ ([0, 242, 5, 42, 1, 0, 0, 0] ++ [1, 81])) ++
          ([1] ++ [1] ++ [171]) ++ [0, 0, 0, 0] ∧
      (SerializeTransaction scenario2Tx true).length = 66 := by
  constructor
  · decide
  · decide

/-- Claim C7: `IsCoinBase` is true exactly when the input list is a single
input whose outpoint is the null sentinel (all-zero hash, index
0xFFFFFFFF). -/
theorem claim_C7_coinbase (tx : CMutableTransaction) :
    tx.IsCoinBase = true ↔
      ∃ i : CTxIn, tx.vin = [i] ∧ i.prevout.hash = 0 ∧
        i.prevout.n = 0xFFFFFFFF := by
  unfold CMutableTransaction.IsCoinBase
  cases hv : tx.vin with
  | nil => simp
  | cons i is =>
    cases is with
    | nil => simp [COutPoint.IsNull, uint256IsNull, and_assoc]
    | cons j js => simp

/-- Claim C8: the default-constructed outpoint is the null sentinel
(all-zero hash, index 0xFFFFFFFF) and reports null; the default-constructed
output has amount −1 with an empty script and reports null; and an output's
nullness is decided by the amount being −1 alone. -/
theorem claim_C8_null_sentinels :
    COutPointDefault.hash = 0 ∧ COutPointDefault.n = 0xFFFFFFFF ∧
      COutPointDefault.IsNull = true ∧
      CTxOutDefault.nValue = -1 ∧ CTxOutDefault.scriptPubKey = [] ∧
      CTxOutDefault.IsNull = true ∧
      (∀ o : CTxOut, o.IsNull = true ↔ o.nValue = -1) := by
  refine ⟨rfl, rfl, rfl, rfl, rfl, rfl, ?_⟩
  intro o
  simp [CTxOut.IsNull]

/-- Claim C9: when the stream version has the
`SERIALIZE_TRANSACTION_NO_WITNESS` bit set, the flags value at the check
point is 0 on every successful path, and the malformed-encoding error is
unreachable on every stream. -/
theorem claim_C9_no_witness_mode (v : Nat) (tx0 : CMutableTransaction)
    (s : ByteStream) (hv : fAllowWitnessOf v = false) :
    (∀ (txp : CMutableTransaction) (flags : Nat) (rest : ByteStream),
        readPreFlagsCheck tx0 (fAllowWitnessOf v) s =
          .ok ((txp, flags), rest) → flags = 0) ∧
      UnserializeTransaction tx0 (fAllowWitnessOf v) s ≠
        .error .unknownOptionalData := by
  rw [hv]
  refine ⟨fun txp flags rest hp => readPreFlagsCheck_false_flags hp, ?_⟩
  intro hbad
  unfold UnserializeTransaction at hbad
  cases hp : readPreFlagsCheck tx0 false s with
  | error e =>
    rw [hp] at hbad
    have he := readPreFlagsCheck_err hp
    subst he
    simp at hbad
  | ok p =>
    obtain ⟨⟨txp, flags⟩, rest⟩ := p
    have hf := readPreFlagsCheck_false_flags hp
    subst hf
    rw [hp] at hbad
    simp only at hbad
    rw [if_neg (by simp)] at hbad
    cases hu : readU32LE rest with
    | error e =>
      rw [hu] at hbad
      have := readU32LE_err hu
      subst this
      simp at hbad
    | ok q =>
      obtain ⟨lock, t⟩ := q
      rw [hu] at hbad
      simp at hbad

/-- Claim C9, witness: the property at the concrete stream version
`SERIALIZE_TRANSACTION_NO_WITNESS` and the empty stream. -/
theorem claim_C9_no_witness_mode_witness :
    UnserializeTransaction txZero
        (fAllowWitnessOf SERIALIZE_TRANSACTION_NO_WITNESS) [] ≠
      .error .unknownOptionalData :=
  (claim_C9_no_witness_mode SERIALIZE_TRANSACTION_NO_WITNESS txZero []
    (by decide)).2

/-- Claim C10: the deserialized value depends only on the stream bytes and
the witness mode, never on the prior contents of the target: the input and
output lists are cleared at entry, and version and locktime are
unconditionally overwritten. -/
theorem claim_C10_target_independence (tx1 tx2 : CMutableTransaction)
    (fw : Bool) (s : ByteStream) :
    UnserializeTransaction tx1 fw s = UnserializeTransaction tx2 fw s := by
  unfold UnserializeTransaction
  rw [readPreFlagsCheck_patch tx1 fw s, readPreFlagsCheck_patch tx2 fw s]
  cases hp : readPreFlagsCheck txZero fw s with
  | error e => simp [Except.map]
  | ok p =>
    obtain ⟨⟨txp, flags⟩, rest⟩ := p
    simp only [Except.map, patchLock]
